import Mathlib

/-!
Shallow embedding of `microcosm_dynamodb/loaders.py`: the DynamoDB-backed
configuration loader (`DynamoDBLoader`) and its envelope-encryption variant
(`EncryptedDynamoDBLoader`), together with proofs of the specified properties.

Python values that matter here are strings and namedtuple instances; rows are
DynamoDB items, i.e. finite maps from attribute name to string.  Python dicts
are modelled as association lists with first-occurrence lookup and
replace-or-append update, which matches dict semantics as long as keys are
never duplicated (and our constructors never duplicate them).
-/

namespace MicrocosmDynamoDB

/-- Errors raised by the loader code.  Python raises plain `Exception` /
`TypeError` / `KeyError`; we give each distinct raise site the name the spec
uses for it: `typeMismatch` for the `put` isinstance check, `malformedRow` for
namedtuple construction from a row with missing or unexpected fields
(a Python `TypeError`), `integrityError` for the HMAC check in `decrypt`,
`keyError` for `row[CONFIG_NAME]` on a row without that attribute,
`attributeError` for attribute access on a value without the attribute, and
`strAssignment` for item assignment on a string (a Python `TypeError`). -/
inductive Err where
  | typeMismatch
  | malformedRow
  | integrityError
  | keyError
  | attributeError
  | strAssignment
deriving DecidableEq

/-- A Python dict with string keys, as an association list (no duplicate keys
are ever created by the operations below). -/
abbrev PyDict (α : Type) := List (String × α)

/-- Dict lookup: `d[k]` / `d.get(k)`, first matching key. -/
def pdictGet {α : Type} (k : String) : PyDict α → Option α
  | [] => none
  | (k2, v) :: rest => if k2 = k then some v else pdictGet k rest

/-- Dict update `d[k] = v`: replace the value at `k` if present, else append. -/
def pdictSet {α : Type} (k : String) (v : α) : PyDict α → PyDict α
  | [] => [(k, v)]
  | (k2, v2) :: rest => if k2 = k then (k, v) :: rest else (k2, v2) :: pdictSet k v rest

/-- The keys of a dict. -/
def pdictKeys {α : Type} (d : PyDict α) : List String := d.map (·.1)

/-- `d.update(u)` (also used to build a dict from a list of pairs, later
occurrences of a key winning, as in a Python dict comprehension). -/
def pdictUpdate {α : Type} (d u : PyDict α) : PyDict α :=
  u.foldl (fun acc kv => pdictSet kv.1 kv.2 acc) d

/-- Build a Python dict from key/value pairs (duplicates: later wins). -/
def pdictOfList {α : Type} (l : PyDict α) : PyDict α := pdictUpdate [] l

/-- An attribute row of the config table: attribute name to string value. -/
abbrev Row := PyDict String

/-- The backing DynamoDB table: a set of rows, modelled as a list. -/
abbrev Table := List Row

/-- `SERVICE_NAME`: the partition-key attribute name (loaders.py line 29). -/
def SERVICE_NAME : String := "service_service"

/-- `CONFIG_NAME`: the sort-key attribute name (loaders.py line 28). -/
def CONFIG_NAME : String := "config_name"

/-- The Python values the loader handles: strings, and namedtuple instances
(`PlaintextValue` / `EncryptedValue`), kept as the type's name together with
the field assignments in declared field order. -/
inductive PyVal where
  | str : String → PyVal
  | inst : String → PyDict String → PyVal
deriving DecidableEq

/-- A value-type variant: a namedtuple type, i.e. its name and its declared
field names in order. -/
structure ValueType where
  typeName : String
  fields : List String
deriving DecidableEq

/-- `PlaintextValue = namedtuple("PlaintextValue", ["plaintext"])`. -/
def PlaintextValueType : ValueType := ⟨"PlaintextValue", ["plaintext"]⟩

/-- `EncryptedValue = namedtuple("EncryptedValue", ["cyphertext_key",
"cyphertext", "cyphertext_hmac"])`. -/
def EncryptedValueType : ValueType :=
  ⟨"EncryptedValue", ["cyphertext_key", "cyphertext", "cyphertext_hmac"]⟩

/-- Calling a namedtuple type with keyword arguments,
`value_type(**kwargs)`: succeeds iff the keyword set is exactly the field
set (a missing required field, or an unexpected keyword, is a Python
`TypeError` — the spec's `MalformedRowError`).  The resulting instance holds
the fields in declared order. -/
def mkInstance (vt : ValueType) (kwargs : PyDict String) : Except Err PyVal :=
  if vt.fields.all (fun f => (pdictGet f kwargs).isSome)
      && (pdictKeys kwargs).all (fun k => vt.fields.contains k) then
    .ok (.inst vt.typeName (vt.fields.map (fun f => (f, (pdictGet f kwargs).getD ""))))
  else
    .error .malformedRow

/-- `isinstance(value, value_type)`: a namedtuple instance is an instance of
the type with its name; a plain string is not. -/
def isinstance (v : PyVal) (vt : ValueType) : Bool :=
  match v with
  | .inst tn _ => tn == vt.typeName
  | .str _ => false

/-- `vars(value)` on a namedtuple instance: its field dict. -/
def pyvars (v : PyVal) : PyDict String :=
  match v with
  | .inst _ fs => fs
  | .str _ => []

/-- The key of a row: its `SERVICE_NAME` and `CONFIG_NAME` attributes. -/
def rowKey (r : Row) : Option String × Option String :=
  (pdictGet SERVICE_NAME r, pdictGet CONFIG_NAME r)

/-- `table.put_item(Item=item)`: upsert by the table key. -/
def putItem (t : Table) (item : Row) : Table :=
  t.filter (fun r => !(rowKey r == rowKey item)) ++ [item]

/-- `table.get_item(Key={SERVICE_NAME: service, CONFIG_NAME: name})`:
the row with that key, if present. -/
def getItem (t : Table) (service name : String) : Option Row :=
  t.find? (fun r => rowKey r == (some service, some name))

/-- `table.delete_item(Key=...)`: drop the row with that key (idempotent). -/
def deleteItem (t : Table) (service name : String) : Table :=
  t.filter (fun r => !(rowKey r == (some service, some name)))

/-- A `DynamoDBLoader`, reduced to what the claims exercise: its value type
(the `value_type` property), its `get_plaintext` method, and its separator.
For the base loader these are `PlaintextValue`, `value.plaintext`, `"."`. -/
structure Loader where
  valueType : ValueType
  getPlaintext : PyVal → Except Err String
  separator : String

/-- `DynamoDBLoader.get_plaintext`: `value.plaintext` (attribute access;
fails on values without the attribute). -/
def plaintextGetPlaintext (v : PyVal) : Except Err String :=
  match v with
  | .inst _ fs =>
    match pdictGet "plaintext" fs with
    | some p => .ok p
    | none => .error .attributeError
  | .str _ => .error .attributeError

/-- The base `DynamoDBLoader` with the default separator `"."`. -/
def plaintextLoader : Loader := ⟨PlaintextValueType, plaintextGetPlaintext, "."⟩

/-- `DynamoDBLoader.put(service, name, value)` (loaders.py lines 138-154):
raise unless `value` is an instance of the configured value type, else build
`item = {SERVICE_NAME: service, CONFIG_NAME: name}`, `item.update(vars(value))`
and upsert it.  Returned as (call outcome, table after the call), the table
unchanged when the call raises. -/
def Loader.put (L : Loader) (t : Table) (service name : String) (value : PyVal) :
    Except Err Unit × Table :=
  if isinstance value L.valueType then
    let item := pdictUpdate (pdictSet CONFIG_NAME name (pdictSet SERVICE_NAME service []))
      (pyvars value)
    (.ok (), putItem t item)
  else
    (.error .typeMismatch, t)

/-- `DynamoDBLoader.get(service, name)` (loaders.py lines 156-176): fetch the
row; `None` when absent; otherwise rebuild the value type from the row's
attributes other than the two key attributes. -/
def Loader.get (L : Loader) (t : Table) (service name : String) :
    Except Err (Option PyVal) :=
  match getItem t service name with
  | none => .ok none
  | some item =>
    (mkInstance L.valueType
      (pdictOfList (item.filter
        (fun kv => kv.1 != SERVICE_NAME && kv.1 != CONFIG_NAME)))).map some

/-- `DynamoDBLoader.delete(service, name)` (loaders.py lines 178-189). -/
def Loader.delete (_L : Loader) (t : Table) (service name : String) : Table :=
  deleteItem t service name

/-- One element of the `items` list comprehension (loaders.py lines 129-136):
`(row[CONFIG_NAME], get_plaintext(value_type(**{name: value for name, value
in row.items() if name != CONFIG_NAME})))`. -/
def Loader.rowItem (L : Loader) (row : Row) : Except Err (String × String) :=
  match pdictGet CONFIG_NAME row with
  | none => .error .keyError
  | some name =>
    match mkInstance L.valueType (pdictOfList (row.filter (fun kv => kv.1 != CONFIG_NAME))) with
    | .error e => .error e
    | .ok v =>
      match L.getPlaintext v with
      | .error e => .error e
      | .ok p => .ok (name, p)

/-- `DynamoDBLoader.items(service)` (loaders.py lines 124-136), applied to the
rows the query returned (`all(service)["Items"]`): a list comprehension, so
the first row that raises aborts the whole call. -/
def Loader.items (L : Loader) (rows : List Row) : Except Err (List (String × String)) :=
  rows.mapM L.rowItem

/-- A value of the nested configuration mapping built by `__call__`: either a
scalar (plaintext string) or a nested dict. -/
inductive ConfigVal where
  | str : String → ConfigVal
  | map : List (String × ConfigVal) → ConfigVal

/-- The nested configuration mapping. -/
abbrev ConfigDict := PyDict ConfigVal

/-- Worker for `pySplit`: scan the characters, emitting a segment whenever the
separator occurs.  The fuel argument only discharges termination; it starts
above the character count and each step consumes at least one character (the
separator is nonempty, as Python requires), so the fuel never runs out. -/
def pySplitGo (sep : List Char) : Nat → List Char → List Char → List (List Char)
  | 0, rest, acc => [acc.reverse ++ rest]
  | _ + 1, [], acc => [acc.reverse]
  | fuel + 1, c :: cs, acc =>
    if sep.isPrefixOf (c :: cs) then
      acc.reverse :: pySplitGo sep fuel ((c :: cs).drop sep.length) []
    else
      pySplitGo sep fuel cs (c :: acc)

/-- Python `s.split(sep)` for a nonempty separator: split `s` at every
occurrence of `sep`; the result always has at least one element, and empty
segments are kept (`"".split(".") == [""]`, `"..".split(".") == ["","",""]`). -/
def pySplit (s sep : String) : List String :=
  (pySplitGo sep.toList (s.length + 1) s.toList []).map (fun l => ⟨l⟩)

/-- One iteration of the `for name, value in self.items(...)` loop body of
`DynamoDBLoader.__call__` (loaders.py lines 198-204):

    name_parts = name.split(self.separator)
    config_part = config
    for name_part in name_parts[:-1]:
        config_part = config.setdefault(name_part, {})
    config_part[name_parts[-1]] = value

Note the loop calls `setdefault` on `config` — the root dict — every time, so
after the loop `config_part` is an alias of a root-level entry (the entry for
the last element of `name_parts[:-1]`), or the root itself when `name_parts`
has a single element.  We render the alias as `Option String`: `none` for the
root, `some k` for the root entry at `k`.  Each sub-dict hanging off the root
was created by exactly one `setdefault`, so it has no other alias and the
final `config_part[...] = value` mutation is a replace-at-root.  When the
aliased root entry is a string, item assignment on it is a Python
`TypeError` (`strAssignment`). -/
def insertItem (sep : String) (config : ConfigDict) (name value : String) :
    Except Err ConfigDict :=
  let nameParts := pySplit name sep
  let walked := nameParts.dropLast.foldl
    (fun (acc : ConfigDict × Option String) part =>
      match pdictGet part acc.1 with
      | some _ => (acc.1, some part)
      | none => (pdictSet part (.map []) acc.1, some part))
    (config, none)
  let last := nameParts.getLastD ""
  match walked.2 with
  | none => .ok (pdictSet last (.str value) walked.1)
  | some k =>
    match pdictGet k walked.1 with
    | some (.map m) => .ok (pdictSet k (.map (pdictSet last (.str value) m)) walked.1)
    | _ => .error .strAssignment

/-- The `config` built by `DynamoDBLoader.__call__` (loaders.py lines
196-205) from the `(name, value)` pairs `items` produced. -/
def buildConfig (sep : String) (items : List (String × String)) : Except Err ConfigDict :=
  items.foldlM (fun cfg nv => insertItem sep cfg nv.1 nv.2) []

/-- `DynamoDBLoader.__call__(metadata)` (loaders.py lines 191-205), applied to
the rows the query for `metadata.name` returned. -/
def Loader.load (L : Loader) (rows : List Row) : Except Err ConfigDict := do
  buildConfig L.separator (← L.items rows)

/-- Look a path of keys up in a nested configuration mapping:
`lookupPath cfg [s1, ..., sk]` is the value at `cfg[s1][s2]...[sk]`. -/
def lookupPath (config : ConfigDict) : List String → Option ConfigVal
  | [] => none
  | [k] => pdictGet k config
  | k :: rest =>
    match pdictGet k config with
    | some (.map m) => lookupPath m rest
    | _ => none

/-- Byte strings, each element a byte value (< 256 where it matters). -/
abbrev Bytes := List Nat

/-- The KMS `EncryptionContext`. -/
abbrev EncryptionContext := List (String × String)

/-- The remote key-management service the encrypted loader delegates key
custody to (an external collaborator): `generate_data_key(KeyId,
EncryptionContext, NumberOfBytes)` returns the pair (`Plaintext` key
material, `CiphertextBlob` wrapped key material); `decrypt(CiphertextBlob,
EncryptionContext)` returns the `Plaintext` key material. -/
structure KMSClient where
  generateDataKey : String → EncryptionContext → Nat → Bytes × Bytes
  decryptKey : Bytes → EncryptionContext → Bytes

/-- The base64 alphabet. -/
def b64alphabet : List Char :=
  "ABCDEFGHIJKLMNOPQRSTUVWXYZabcdefghijklmnopqrstuvwxyz0123456789+/".toList

/-- The base64 character for a sextet. -/
def b64char (n : Nat) : Char := b64alphabet.getD n '='

/-- The sextet of a base64 character. -/
def b64charIndex (c : Char) : Nat := b64alphabet.indexOf c

/-- `base64.b64encode` on a byte string. -/
def b64encode : Bytes → List Char
  | [] => []
  | [a] => [b64char (a / 4), b64char (a % 4 * 16), '=', '=']
  | [a, b] => [b64char (a / 4), b64char (a % 4 * 16 + b / 16), b64char (b % 16 * 4), '=']
  | a :: b :: c :: rest =>
    b64char (a / 4) :: b64char (a % 4 * 16 + b / 16) :: b64char (b % 16 * 4 + c / 64)
      :: b64char (c % 64) :: b64encode rest

/-- `base64.b64decode` on well-formed input (groups of four characters,
with `=` padding on the last group). -/
def b64decode : List Char → Bytes
  | c1 :: c2 :: c3 :: c4 :: rest =>
    if c3 = '=' then
      [b64charIndex c1 * 4 + b64charIndex c2 / 16]
    else if c4 = '=' then
      [b64charIndex c1 * 4 + b64charIndex c2 / 16,
       b64charIndex c2 % 16 * 16 + b64charIndex c3 / 4]
    else
      (b64charIndex c1 * 4 + b64charIndex c2 / 16)
        :: (b64charIndex c2 % 16 * 16 + b64charIndex c3 / 4)
        :: (b64charIndex c3 % 4 * 64 + b64charIndex c4)
        :: b64decode rest
  | _ => []

/-- A lower-case hex digit. -/
def hexChar (n : Nat) : Char := "0123456789abcdef".toList.getD n '0'

/-- `hexdigest()`: the digest bytes as lower-case hex characters. -/
def hexdigest (bs : Bytes) : List Char :=
  bs.foldr (fun b acc => hexChar (b / 16) :: hexChar (b % 16) :: acc) []

/-- `HMAC(key, msg=..., digestmod=SHA256)` over an abstract compression
function `H` standing for the SHA-256 hash (an external library primitive;
every theorem below holds for an arbitrary `H`).  Block size 64 bytes,
opad `0x5c`, ipad `0x36`. -/
def hmacSha256 (H : Bytes → Bytes) (key msg : Bytes) : Bytes :=
  let k0 := if 64 < key.length then H key else key
  let k0pad := k0 ++ List.replicate (64 - k0.length) 0
  H ((k0pad.map (fun b => b ^^^ 92)) ++ H ((k0pad.map (fun b => b ^^^ 54)) ++ msg))

/-- The initial counter value of `Crypto.Util.Counter.new(128)`: the
library's `initial_value` default, which is `1` (not `0`). -/
def counterNewInitialValue : Nat := 1

/-- The 128-bit counter block for counter value `n`, as 16 big-endian
bytes. -/
def counterBlock (n : Nat) : Bytes :=
  (List.range 16).map (fun i => n / 256 ^ (15 - i) % 256)

/-- Byte `i` of the AES-CTR keystream, for block cipher `E` (an abstract
stand-in for the keyed AES block encryption, an external library primitive;
`% 256` records that a block cipher emits bytes), key `key`, and initial
counter value `ctr0`. -/
def ctrKeystreamByte (E : Bytes → Bytes → Bytes) (key : Bytes) (ctr0 i : Nat) : Nat :=
  (E key (counterBlock (ctr0 + i / 16))).getD (i % 16) 0 % 256

/-- XOR a byte string with the keystream, starting at keystream position
`i`. -/
def xorKeystream (ks : Nat → Nat) : Nat → Bytes → Bytes
  | _, [] => []
  | i, b :: rest => (b ^^^ ks i) :: xorKeystream ks (i + 1) rest

/-- `AES.new(key, AES.MODE_CTR, counter=Counter.new(128)).encrypt` (and
equally `.decrypt` — CTR mode is its own inverse): XOR with the keystream. -/
def ctrCrypt (E : Bytes → Bytes → Bytes) (key : Bytes) (ctr0 : Nat) (data : Bytes) : Bytes :=
  xorKeystream (ctrKeystreamByte E key ctr0) 0 data

/-- `EncryptedValue = namedtuple("EncryptedValue", ["cyphertext_key",
"cyphertext", "cyphertext_hmac"])` as a record: the base64 wrapped key, the
base64 ciphertext, and the hex HMAC tag. -/
structure EncryptedValue where
  cyphertext_key : List Char
  cyphertext : List Char
  cyphertext_hmac : List Char
deriving DecidableEq

/-- `EncryptedDynamoDBLoader.encrypt(plaintext, context)` (loaders.py lines
232-257), over an abstract AES block cipher `E`, hash `H`, and KMS client:
generate 64 bytes of key material under `kmsKey`, split it into the 32-byte
data key and the 32-byte HMAC key, encrypt the plaintext with AES-CTR
(counter from `Counter.new(128)`), HMAC the ciphertext, and return the
`EncryptedValue` of the base64 wrapped key, the base64 ciphertext and the
hex tag.  Plaintext is the Python 2 byte string. -/
def encrypt (E : Bytes → Bytes → Bytes) (H : Bytes → Bytes) (kms : KMSClient)
    (kmsKey : String) (context : EncryptionContext) (plaintext : Bytes) : EncryptedValue :=
  let kmsResponse := kms.generateDataKey kmsKey context 64
  let dataKey := kmsResponse.1.take 32
  let hmacKey := kmsResponse.1.drop 32
  let wrappedKey := kmsResponse.2
  let cText := ctrCrypt E dataKey counterNewInitialValue plaintext
  let b64hmac := hexdigest (hmacSha256 H hmacKey cText)
  ⟨b64encode wrappedKey, b64encode cText, b64hmac⟩

/-- `EncryptedDynamoDBLoader.decrypt(value, context)` (loaders.py lines
259-283): unwrap the key material through KMS, split it, recompute the HMAC
over the base64-decoded ciphertext and compare it with the stored tag —
raising before any decryption when they differ — then decrypt with AES-CTR
(counter from `Counter.new(128)`).  The trailing `.decode("utf-8")` stays at
the byte level (Python 2 byte semantics). -/
def decrypt (E : Bytes → Bytes → Bytes) (H : Bytes → Bytes) (kms : KMSClient)
    (value : EncryptedValue) (context : EncryptionContext) : Except Err Bytes :=
  let keyMaterial := kms.decryptKey (b64decode value.cyphertext_key) context
  let key := keyMaterial.take 32
  let hmacKey := keyMaterial.drop 32
  if hexdigest (hmacSha256 H hmacKey (b64decode value.cyphertext)) ≠ value.cyphertext_hmac then
    .error .integrityError
  else
    .ok (ctrCrypt E key counterNewInitialValue (b64decode value.cyphertext))

/-- A concrete stand-in block cipher for evaluating the crypto theorems on
closed inputs: reverse the counter block (so distinct counters give distinct
keystreams). -/
def testBlockCipher : Bytes → Bytes → Bytes := fun _ block => block.reverse

/-- A concrete stand-in hash for evaluating the crypto theorems on closed
inputs. -/
def testHash : Bytes → Bytes := fun bs => [bs.length % 256, 7]

/-- A concrete key-management client for evaluating the crypto theorems on
closed inputs: a fixed 64-byte key material wrapped as `[1, 2, 3]`, unwrapped
back faithfully. -/
def testKMS : KMSClient :=
  { generateDataKey := fun _ _ _ => ((List.range 64).map (· + 100), [1, 2, 3])
    decryptKey := fun w _ => if w = [1, 2, 3] then (List.range 64).map (· + 100) else [] }

/-- The `PlaintextValue("bar")` of the spec's get/put/delete property. -/
def barValue : PyVal := .inst "PlaintextValue" [("plaintext", "bar")]

/-- A concrete `EncryptedValue` (empty wrapped key and ciphertext, correctly
tagged under `testHash` and `testKMS`) for evaluating the decrypt theorems on
closed inputs. -/
def taggedValue : EncryptedValue := ⟨[], [], hexdigest (hmacSha256 testHash [] [])⟩

/-- A scanned row missing the required `plaintext` field. -/
def missingFieldRow : Row := [(CONFIG_NAME, "foo")]

/-- A scanned row carrying the partition-key attribute besides the item name
and a complete set of value-type fields. -/
def extraAttrRow : Row := [(CONFIG_NAME, "foo"), ("plaintext", "bar"), (SERVICE_NAME, "dummy")]


/-! ## Lemmas about the Python dict model -/

theorem pdictKeys_nil {α : Type} : pdictKeys ([] : PyDict α) = [] := rfl

theorem pdictKeys_cons {α : Type} (kv : String × α) (d : PyDict α) :
    pdictKeys (kv :: d) = kv.1 :: pdictKeys d := rfl

theorem pdictUpdate_nil {α : Type} (d : PyDict α) : pdictUpdate d [] = d := rfl

theorem pdictUpdate_cons {α : Type} (d : PyDict α) (kv : String × α) (u : PyDict α) :
    pdictUpdate d (kv :: u) = pdictUpdate (pdictSet kv.1 kv.2 d) u := rfl

theorem pdictGet_pdictSet_self {α : Type} (k : String) (v : α) (d : PyDict α) :
    pdictGet k (pdictSet k v d) = some v := by
  induction d with
  | nil => simp [pdictGet, pdictSet]
  | cons kv rest ih =>
    by_cases h : kv.1 = k
    · simp [pdictSet, h, pdictGet]
    · simp [pdictSet, h, pdictGet, ih]

theorem pdictGet_pdictSet_ne {α : Type} {k2 k : String} (h : k2 ≠ k) (v : α) (d : PyDict α) :
    pdictGet k (pdictSet k2 v d) = pdictGet k d := by
  induction d with
  | nil => simp [pdictGet, pdictSet, h]
  | cons kv rest ih =>
    by_cases h2 : kv.1 = k2
    · subst h2
      rw [show pdictSet kv.1 v (kv :: rest) = (kv.1, v) :: rest by simp [pdictSet]]
      rw [show pdictGet k ((kv.1, v) :: rest) = if kv.1 = k then some v else pdictGet k rest from rfl]
      rw [show pdictGet k (kv :: rest) = if kv.1 = k then some kv.2 else pdictGet k rest from rfl]
      rw [if_neg h, if_neg h]
    · rw [show pdictSet k2 v (kv :: rest) = kv :: pdictSet k2 v rest by simp [pdictSet, h2]]
      rw [show pdictGet k (kv :: pdictSet k2 v rest)
          = if kv.1 = k then some kv.2 else pdictGet k (pdictSet k2 v rest) from rfl]
      rw [show pdictGet k (kv :: rest) = if kv.1 = k then some kv.2 else pdictGet k rest from rfl]
      rw [ih]

theorem pdictGet_eq_none {α : Type} {k : String} {d : PyDict α}
    (h : k ∉ pdictKeys d) : pdictGet k d = none := by
  induction d with
  | nil => rfl
  | cons kv rest ih =>
    rw [pdictKeys_cons, List.mem_cons] at h
    push_neg at h
    have h1 : kv.1 ≠ k := fun hc => h.1 hc.symm
    rw [show pdictGet k (kv :: rest) = if kv.1 = k then some kv.2 else pdictGet k rest from rfl]
    rw [if_neg h1, ih h.2]

theorem pdictGet_isSome {α : Type} {k : String} {d : PyDict α}
    (h : k ∈ pdictKeys d) : (pdictGet k d).isSome := by
  induction d with
  | nil => simp [pdictKeys_nil] at h
  | cons kv rest ih =>
    rw [show pdictGet k (kv :: rest) = if kv.1 = k then some kv.2 else pdictGet k rest from rfl]
    by_cases h2 : kv.1 = k
    · simp [h2]
    · rw [if_neg h2]
      rw [pdictKeys_cons, List.mem_cons] at h
      rcases h with h | h
      · exact absurd h.symm h2
      · exact ih h

theorem pdictSet_eq_append {α : Type} {k : String} {d : PyDict α}
    (h : k ∉ pdictKeys d) (v : α) : pdictSet k v d = d ++ [(k, v)] := by
  induction d with
  | nil => rfl
  | cons kv rest ih =>
    rw [pdictKeys_cons, List.mem_cons] at h
    push_neg at h
    have h1 : kv.1 ≠ k := fun hc => h.1 hc.symm
    rw [show pdictSet k v (kv :: rest) = kv :: pdictSet k v rest by simp [pdictSet, h1]]
    rw [ih h.2, List.cons_append]

theorem mem_keys_pdictSet {α : Type} {a k : String} (v : α) (d : PyDict α) :
    a ∈ pdictKeys (pdictSet k v d) ↔ a = k ∨ a ∈ pdictKeys d := by
  induction d with
  | nil => simp [pdictSet, pdictKeys]
  | cons kv rest ih =>
    by_cases h2 : kv.1 = k
    · rw [show pdictSet k v (kv :: rest) = (k, v) :: rest by simp [pdictSet, h2]]
      rw [pdictKeys_cons, pdictKeys_cons, List.mem_cons, List.mem_cons]
      simp only [h2]
      tauto
    · rw [show pdictSet k v (kv :: rest) = kv :: pdictSet k v rest by simp [pdictSet, h2]]
      rw [pdictKeys_cons, pdictKeys_cons, List.mem_cons, List.mem_cons, ih]
      tauto

theorem pdictGet_pdictUpdate_not_mem {α : Type} {k : String} {u : PyDict α}
    (h : k ∉ pdictKeys u) :
    ∀ d : PyDict α, pdictGet k (pdictUpdate d u) = pdictGet k d := by
  induction u with
  | nil => intro d; rfl
  | cons kv rest ih =>
    intro d
    rw [pdictKeys_cons, List.mem_cons] at h
    push_neg at h
    rw [pdictUpdate_cons, ih h.2]
    exact pdictGet_pdictSet_ne (fun hc => h.1 hc.symm) kv.2 d

theorem mem_keys_pdictUpdate_left {α : Type} {a : String} (u : PyDict α) :
    ∀ {d : PyDict α}, a ∈ pdictKeys d → a ∈ pdictKeys (pdictUpdate d u) := by
  induction u with
  | nil => intro d h; exact h
  | cons kv rest ih =>
    intro d h
    rw [pdictUpdate_cons]
    exact ih ((mem_keys_pdictSet kv.2 d).mpr (Or.inr h))

theorem mem_keys_pdictUpdate_right {α : Type} {a : String} {u : PyDict α}
    (h : a ∈ pdictKeys u) (d : PyDict α) :
    a ∈ pdictKeys (pdictUpdate d u) := by
  induction u generalizing d with
  | nil => simp [pdictKeys_nil] at h
  | cons kv rest ih =>
    rw [pdictUpdate_cons]
    rw [pdictKeys_cons, List.mem_cons] at h
    by_cases h2 : a ∈ pdictKeys rest
    · exact ih h2 _
    · have ha : a = kv.1 := by tauto
      exact mem_keys_pdictUpdate_left rest
        ((mem_keys_pdictSet kv.2 d).mpr (Or.inl ha))

theorem pdictUpdate_eq_append {α : Type} {u : PyDict α} :
    ∀ {d : PyDict α}, (∀ k ∈ pdictKeys u, k ∉ pdictKeys d) → (pdictKeys u).Nodup →
    pdictUpdate d u = d ++ u := by
  induction u with
  | nil => intro d _ _; simp [pdictUpdate_nil]
  | cons kv rest ih =>
    intro d hdisj hnodup
    have hn : kv.1 ∉ pdictKeys rest ∧ (pdictKeys rest).Nodup :=
      List.nodup_cons.mp (hnodup : (kv.1 :: pdictKeys rest).Nodup)
    rw [pdictUpdate_cons]
    rw [pdictSet_eq_append (hdisj kv.1 (by rw [pdictKeys_cons]; exact List.mem_cons_self _ _)) kv.2]
    rw [ih ?_ hn.2]
    · simp
    · intro k hk
      have h1 : k ∉ pdictKeys d :=
        hdisj k (by rw [pdictKeys_cons]; exact List.mem_cons_of_mem _ hk)
      have h2 : k ≠ kv.1 := fun hc => hn.1 (hc ▸ hk)
      have hkeys : pdictKeys (d ++ [(kv.1, kv.2)]) = pdictKeys d ++ [kv.1] := by
        simp [pdictKeys]
      intro hc
      rw [hkeys] at hc
      rcases List.mem_append.mp hc with h3 | h3
      · exact h1 h3
      · exact h2 (List.mem_singleton.mp h3)

theorem map_keys_pdictGet {α : Type} {d : PyDict α} (dflt : α)
    (hnodup : (pdictKeys d).Nodup) :
    (pdictKeys d).map (fun k => (k, (pdictGet k d).getD dflt)) = d := by
  induction d with
  | nil => rfl
  | cons kv rest ih =>
    obtain ⟨k1, v1⟩ := kv
    have hn : k1 ∉ pdictKeys rest ∧ (pdictKeys rest).Nodup :=
      List.nodup_cons.mp (hnodup : (k1 :: pdictKeys rest).Nodup)
    have hmap : (pdictKeys rest).map (fun k => (k, (pdictGet k ((k1, v1) :: rest)).getD dflt))
        = (pdictKeys rest).map (fun k => (k, (pdictGet k rest).getD dflt)) := by
      apply List.map_congr_left
      intro k hk
      have hne : k1 ≠ k := fun hc => hn.1 (hc ▸ hk)
      rw [show pdictGet k ((k1, v1) :: rest)
          = if k1 = k then some v1 else pdictGet k rest from rfl, if_neg hne]
    show (k1 :: pdictKeys rest).map _ = _
    rw [List.map_cons, hmap, ih hn.2]
    rw [show pdictGet k1 ((k1, v1) :: rest)
        = if k1 = k1 then some v1 else pdictGet k1 rest from rfl, if_pos rfl]
    rfl

/-! ## Lemmas about the table model -/

theorem find?_filter_append {α : Type} (l : List α) (p q : α → Bool) (a : α)
    (himp : ∀ x, q x = true → p x = false) (hq : q a = true) :
    ((l.filter p) ++ [a]).find? q = some a := by
  induction l with
  | nil => simp [List.find?, hq]
  | cons x xs ih =>
    by_cases hp : p x = true
    · rw [List.filter_cons_of_pos hp, List.cons_append, List.find?_cons]
      have hqx : q x = false := by
        cases hqx : q x with
        | false => rfl
        | true => rw [himp x hqx] at hp; exact absurd hp (by simp)
      rw [hqx]
      exact ih
    · rw [List.filter_cons_of_neg (by simpa using hp)]
      exact ih

theorem find?_filter_not {α : Type} (l : List α) (q : α → Bool) :
    (l.filter (fun x => !(q x))).find? q = none := by
  induction l with
  | nil => rfl
  | cons x xs ih =>
    by_cases hq : q x = true
    · rw [List.filter_cons_of_neg (by simp [hq])]
      exact ih
    · rw [List.filter_cons_of_pos (by simp [Bool.of_not_eq_true hq]), List.find?_cons]
      rw [Bool.of_not_eq_true hq]
      exact ih

/-! ## Lemmas about mapM over Except -/

theorem mapM_cons_except {α β : Type} (f : α → Except Err β) (a : α) (l : List α) :
    (a :: l).mapM f = f a >>= fun b => l.mapM f >>= fun bs => pure (b :: bs) := by
  rw [List.mapM_cons]

theorem mapM_eq_error {α β : Type} (f : α → Except Err β) (row : α) (e : Err)
    (herr : f row = .error e) :
    ∀ (pre post : List α), (∀ r ∈ pre, ∃ b, f r = .ok b) →
    (pre ++ row :: post).mapM f = .error e := by
  intro pre
  induction pre with
  | nil =>
    intro post _
    rw [List.nil_append, mapM_cons_except, herr]
    rfl
  | cons a rest ih =>
    intro post hpre
    obtain ⟨b, hb⟩ := hpre a (List.mem_cons_self _ _)
    rw [List.cons_append, mapM_cons_except, hb]
    have := ih post (fun r hr => hpre r (List.mem_cons_of_mem _ hr))
    rw [show (rest ++ row :: post).mapM f = .error e from this]
    rfl

theorem mapM_isError_of_mem {α β : Type} (f : α → Except Err β) (rows : List α)
    (row : α) (e : Err) (hmem : row ∈ rows) (herr : f row = .error e) :
    ∃ e2, rows.mapM f = .error e2 := by
  induction rows with
  | nil => exact absurd hmem (List.not_mem_nil _)
  | cons a rest ih =>
    rw [mapM_cons_except]
    cases hfa : f a with
    | error ea => exact ⟨ea, rfl⟩
    | ok b =>
      rcases List.mem_cons.mp hmem with hra | hrest
      · exact absurd ((hra ▸ hfa : f row = .ok b).symm.trans herr) (by simp)
      · obtain ⟨e2, he2⟩ := ih hrest
        refine ⟨e2, ?_⟩
        rw [he2]
        rfl

/-! ## Lemmas about namedtuple construction -/

theorem mkInstance_error_of_missing_field {vt : ValueType} {kwargs : PyDict String}
    {f : String} (hf : f ∈ vt.fields) (hnone : pdictGet f kwargs = none) :
    mkInstance vt kwargs = .error .malformedRow := by
  unfold mkInstance
  have hall : vt.fields.all (fun f => (pdictGet f kwargs).isSome) = false := by
    rw [List.all_eq_false]
    exact ⟨f, hf, by simp [hnone]⟩
  rw [hall]
  simp

theorem mkInstance_error_of_extra_key {vt : ValueType} {kwargs : PyDict String}
    {a : String} (ha : a ∈ pdictKeys kwargs) (hnf : a ∉ vt.fields) :
    mkInstance vt kwargs = .error .malformedRow := by
  unfold mkInstance
  have hall : (pdictKeys kwargs).all (fun k => vt.fields.contains k) = false := by
    rw [List.all_eq_false]
    exact ⟨a, ha, by simp [hnf]⟩
  rw [hall, Bool.and_false]
  simp

theorem mkInstance_ok {vt : ValueType} {kwargs : PyDict String}
    (hkeys : pdictKeys kwargs = vt.fields) (hnodup : vt.fields.Nodup) :
    mkInstance vt kwargs = .ok (.inst vt.typeName kwargs) := by
  unfold mkInstance
  have h1 : vt.fields.all (fun f => (pdictGet f kwargs).isSome) = true := by
    rw [List.all_eq_true]
    intro f hf
    exact pdictGet_isSome (hkeys ▸ hf)
  have h2 : (pdictKeys kwargs).all (fun k => vt.fields.contains k) = true := by
    rw [List.all_eq_true]
    intro k hk
    simp [hkeys ▸ hk]
  rw [h1, h2]
  simp only [Bool.and_self, if_true]
  rw [← hkeys, map_keys_pdictGet "" (hkeys ▸ hnodup)]

/-! ## Lemmas about CTR mode -/

theorem xorKeystream_involutive (ks : Nat → Nat) :
    ∀ (i : Nat) (data : Bytes), xorKeystream ks i (xorKeystream ks i data) = data := by
  intro i data
  induction data generalizing i with
  | nil => rfl
  | cons b rest ih =>
    show (b ^^^ ks i ^^^ ks i) :: xorKeystream ks (i + 1) (xorKeystream ks (i + 1) rest)
      = b :: rest
    rw [Nat.xor_assoc, Nat.xor_self, Nat.xor_zero, ih]

theorem ctrCrypt_ctrCrypt (E : Bytes → Bytes → Bytes) (key : Bytes) (c : Nat) (data : Bytes) :
    ctrCrypt E key c (ctrCrypt E key c data) = data :=
  xorKeystream_involutive _ 0 data

theorem ctrKeystreamByte_lt (E : Bytes → Bytes → Bytes) (key : Bytes) (c i : Nat) :
    ctrKeystreamByte E key c i < 256 :=
  Nat.mod_lt _ (by norm_num)

theorem mem_xorKeystream_lt {ks : Nat → Nat} (hks : ∀ i, ks i < 256) :
    ∀ (i : Nat) (data : Bytes), (∀ b ∈ data, b < 256) →
    ∀ b ∈ xorKeystream ks i data, b < 256 := by
  intro i data
  induction data generalizing i with
  | nil => intro _ b hb; exact absurd hb (List.not_mem_nil _)
  | cons x rest ih =>
    intro hdata b hb
    rcases List.mem_cons.mp hb with hb | hb
    · subst hb
      have hx : x < 2 ^ 8 := by
        have := hdata x (List.mem_cons_self _ _)
        simpa using this
      have hk : ks i < 2 ^ 8 := by simpa using hks i
      simpa using Nat.xor_lt_two_pow hx hk
    · exact ih (i + 1) (fun y hy => hdata y (List.mem_cons_of_mem _ hy)) b hb

theorem mem_ctrCrypt_lt (E : Bytes → Bytes → Bytes) (key : Bytes) (c : Nat) {data : Bytes}
    (hdata : ∀ b ∈ data, b < 256) : ∀ b ∈ ctrCrypt E key c data, b < 256 :=
  mem_xorKeystream_lt (fun i => ctrKeystreamByte_lt E key c i) 0 data hdata

/-! ## Lemmas about base64 -/

theorem b64charIndex_b64char : ∀ n < 64, b64charIndex (b64char n) = n := by decide

theorem b64char_ne_pad : ∀ n < 64, b64char n ≠ '=' := by decide

theorem b64decode_b64encode : ∀ (bs : Bytes), (∀ b ∈ bs, b < 256) →
    b64decode (b64encode bs) = bs := by
  intro bs
  induction bs using b64encode.induct with
  | case1 => intro _; rfl
  | case2 a =>
    intro h
    have ha : a < 256 := h a (List.mem_singleton.mpr rfl)
    rw [show b64encode [a] = [b64char (a / 4), b64char (a % 4 * 16), '=', '='] from rfl]
    rw [show b64decode [b64char (a / 4), b64char (a % 4 * 16), '=', '=']
        = [b64charIndex (b64char (a / 4)) * 4 + b64charIndex (b64char (a % 4 * 16)) / 16]
        from by rw [b64decode]; rw [if_pos rfl]]
    rw [b64charIndex_b64char (a / 4) (by omega), b64charIndex_b64char (a % 4 * 16) (by omega)]
    congr 1
    omega
  | case3 a b =>
    intro h
    have ha : a < 256 := h a (by simp)
    have hb : b < 256 := h b (by simp)
    rw [show b64encode [a, b]
        = [b64char (a / 4), b64char (a % 4 * 16 + b / 16), b64char (b % 16 * 4), '='] from rfl]
    rw [b64decode]
    rw [if_neg (b64char_ne_pad (b % 16 * 4) (by omega))]
    rw [if_pos rfl]
    rw [b64charIndex_b64char (a / 4) (by omega),
      b64charIndex_b64char (a % 4 * 16 + b / 16) (by omega),
      b64charIndex_b64char (b % 16 * 4) (by omega)]
    congr 1
    · omega
    · congr 1
      omega
  | case4 a b c rest ih =>
    intro h
    have ha : a < 256 := h a (by simp)
    have hb : b < 256 := h b (by simp)
    have hc : c < 256 := h c (by simp)
    rw [show b64encode (a :: b :: c :: rest)
        = b64char (a / 4) :: b64char (a % 4 * 16 + b / 16) :: b64char (b % 16 * 4 + c / 64)
          :: b64char (c % 64) :: b64encode rest from rfl]
    rw [b64decode]
    rw [if_neg (b64char_ne_pad (b % 16 * 4 + c / 64) (by omega))]
    rw [if_neg (b64char_ne_pad (c % 64) (by omega))]
    rw [b64charIndex_b64char (a / 4) (by omega),
      b64charIndex_b64char (a % 4 * 16 + b / 16) (by omega),
      b64charIndex_b64char (b % 16 * 4 + c / 64) (by omega),
      b64charIndex_b64char (c % 64) (by omega)]
    rw [ih (fun x hx => h x (by simp [hx]))]
    congr 1
    · omega
    · congr 1
      · omega
      · congr 1
        omega

/-! ## Claim theorems: envelope encryption -/

/-- C1: for every plaintext byte string `P`, key id, and encryption context,
decrypting the `EncryptedValue` produced by `encrypt` with the same context
returns exactly `P`, assuming the key-management service faithfully unwraps
the wrapped key it produced (and that the wrapped key is a byte string).
Holds for every block cipher `E` and hash `H`. -/
theorem encrypt_decrypt_roundtrip
    (E : Bytes → Bytes → Bytes) (H : Bytes → Bytes) (kms : KMSClient)
    (kmsKey : String) (context : EncryptionContext) (P : Bytes)
    (hP : ∀ b ∈ P, b < 256)
    (hwrap : ∀ b ∈ (kms.generateDataKey kmsKey context 64).2, b < 256)
    (hkms : kms.decryptKey (kms.generateDataKey kmsKey context 64).2 context
      = (kms.generateDataKey kmsKey context 64).1) :
    decrypt E H kms (encrypt E H kms kmsKey context P) context = .ok P := by
  have hct : ∀ b ∈ ctrCrypt E ((kms.generateDataKey kmsKey context 64).1.take 32)
      counterNewInitialValue P, b < 256 :=
    mem_ctrCrypt_lt _ _ _ hP
  unfold encrypt decrypt
  simp only [b64decode_b64encode _ hwrap, b64decode_b64encode _ hct, hkms]
  rw [if_neg (fun hc => hc rfl)]
  exact congrArg Except.ok (ctrCrypt_ctrCrypt E _ counterNewInitialValue P)

/-- Witness for C1: the round trip evaluated at the plaintext `[104, 105]`
("hi") under the concrete test instantiation. -/
theorem encrypt_decrypt_roundtrip_witness :
    decrypt testBlockCipher testHash testKMS
      (encrypt testBlockCipher testHash testKMS "alias/config" [] [104, 105]) []
      = .ok [104, 105] :=
  encrypt_decrypt_roundtrip testBlockCipher testHash testKMS "alias/config" [] [104, 105]
    (by decide) (by decide) (by decide)

/-- C3: whenever the stored integrity tag differs from the HMAC recomputed
over the base64-decoded ciphertext with the authentication sub-key (the
second 32 bytes of the unwrapped key material), `decrypt` fails with the
integrity error and returns no plaintext (the guard precedes the stream
cipher in the definition of `decrypt`). -/
theorem decrypt_integrity_rejection
    (E : Bytes → Bytes → Bytes) (H : Bytes → Bytes) (kms : KMSClient)
    (value : EncryptedValue) (context : EncryptionContext)
    (hTag : hexdigest (hmacSha256 H
        ((kms.decryptKey (b64decode value.cyphertext_key) context).drop 32)
        (b64decode value.cyphertext)) ≠ value.cyphertext_hmac) :
    decrypt E H kms value context = .error .integrityError := by
  unfold decrypt
  rw [if_pos hTag]

/-- Witness for C3: a tag of `"x"` never matches the recomputed HMAC, so the
decrypt of that value is the integrity error. -/
theorem decrypt_integrity_rejection_witness :
    decrypt testBlockCipher testHash testKMS ⟨[], [], ['x']⟩ [] = .error .integrityError :=
  decrypt_integrity_rejection testBlockCipher testHash testKMS ⟨[], [], ['x']⟩ [] (by decide)

/-- C7 (amended): both `encrypt` and `decrypt` initialize the counter-mode
stream cipher with the same fixed, deterministic initial counter value —
`Counter.new(128)` with the library default initial value, which is one, not
zero.  The encrypt conjunct exhibits the ciphertext as CTR encryption from
`counterNewInitialValue`; the decrypt conjunct (under a matching tag) exhibits
the returned plaintext as CTR decryption from the same value. -/
theorem ctr_fixed_initial_counter
    (E : Bytes → Bytes → Bytes) (H : Bytes → Bytes) (kms : KMSClient)
    (kmsKey : String) (context : EncryptionContext) (P : Bytes)
    (value : EncryptedValue)
    (hTag : hexdigest (hmacSha256 H
        ((kms.decryptKey (b64decode value.cyphertext_key) context).drop 32)
        (b64decode value.cyphertext)) = value.cyphertext_hmac) :
    (encrypt E H kms kmsKey context P).cyphertext
      = b64encode (ctrCrypt E ((kms.generateDataKey kmsKey context 64).1.take 32)
          counterNewInitialValue P)
    ∧ decrypt E H kms value context
      = .ok (ctrCrypt E ((kms.decryptKey (b64decode value.cyphertext_key) context).take 32)
          counterNewInitialValue (b64decode value.cyphertext))
    ∧ counterNewInitialValue = 1 := by
  refine ⟨rfl, ?_, rfl⟩
  unfold decrypt
  rw [if_neg (fun hc => hc hTag)]

/-- Witness for C7's amended theorem at concrete inputs: plaintext `[5]` and
the correctly tagged `taggedValue`. -/
theorem ctr_fixed_initial_counter_witness :
    (encrypt testBlockCipher testHash testKMS "alias/config" [] [5]).cyphertext
      = b64encode (ctrCrypt testBlockCipher
          ((testKMS.generateDataKey "alias/config" [] 64).1.take 32)
          counterNewInitialValue [5])
    ∧ decrypt testBlockCipher testHash testKMS taggedValue []
      = .ok (ctrCrypt testBlockCipher
          ((testKMS.decryptKey (b64decode taggedValue.cyphertext_key) []).take 32)
          counterNewInitialValue (b64decode taggedValue.cyphertext))
    ∧ counterNewInitialValue = 1 :=
  ctr_fixed_initial_counter testBlockCipher testHash testKMS "alias/config" [] [5]
    taggedValue (by decide)

/-- C7 counterexample: the claim says the counter starts at zero, but with a
block cipher that distinguishes counter blocks, encrypting `[5]` produces a
ciphertext different from what CTR encryption with initial counter zero would
produce — the code's initial counter value is one, the library default. -/
theorem ctr_initial_counter_not_zero :
    (encrypt testBlockCipher testHash testKMS "alias/config" [] [5]).cyphertext
      ≠ b64encode (ctrCrypt testBlockCipher
          ((testKMS.generateDataKey "alias/config" [] 64).1.take 32) 0 [5]) := by
  decide

/-! ## Claim theorems: the loader over the table -/

theorem mem_keys_pdictUpdate {α : Type} {a : String} {u : PyDict α} :
    ∀ {d : PyDict α}, a ∈ pdictKeys (pdictUpdate d u) →
    a ∈ pdictKeys d ∨ a ∈ pdictKeys u := by
  induction u with
  | nil => intro d h; exact Or.inl h
  | cons kv rest ih =>
    intro d h
    rw [pdictUpdate_cons] at h
    rcases ih h with h2 | h2
    · rcases (mem_keys_pdictSet kv.2 d).mp h2 with h3 | h3
      · exact Or.inr (by rw [pdictKeys_cons]; exact h3 ▸ List.mem_cons_self _ _)
      · exact Or.inl h3
    · exact Or.inr (by rw [pdictKeys_cons]; exact List.mem_cons_of_mem _ h2)

theorem rowItem_error_of_mkInstance (L : Loader) (row : Row) (nm : String)
    (hnm : pdictGet CONFIG_NAME row = some nm)
    (hmk : mkInstance L.valueType (pdictOfList (row.filter (fun kv => kv.1 != CONFIG_NAME)))
      = .error .malformedRow) :
    L.rowItem row = .error .malformedRow := by
  unfold Loader.rowItem
  rw [hnm, hmk]

/-- C8: invoking the loader on a namespace whose table scan returned zero
rows yields an empty mapping, for every loader configuration. -/
theorem load_empty_rows (L : Loader) : L.load [] = .ok [] := rfl

/-- C2 (code-bug exhibit): the loop in `__call__` calls `setdefault` on the
root `config` dict instead of on the walked `config_part`, so a three-segment
item name `"a.b.c"` does not produce the nested mapping
`{"a": {"b": {"c": "v"}}}`: the loader yields the flat
`{"a": {}, "b": {"c": "v"}}`, the value is absent at path `a.b.c`, and it
sits at path `b.c` instead. -/
theorem deep_nesting_flattened :
    Loader.load plaintextLoader [[(CONFIG_NAME, "a.b.c"), ("plaintext", "v")]]
      = .ok [("a", .map []), ("b", .map [("c", .str "v")])]
    ∧ lookupPath [("a", .map []), ("b", .map [("c", .str "v")])] ["a", "b", "c"] = none
    ∧ lookupPath [("a", .map []), ("b", .map [("c", .str "v")])] ["b", "c"]
      = some (.str "v") :=
  ⟨rfl, rfl, rfl⟩

/-- C5: `put` with a value that is not an instance of the loader's configured
value-type variant fails with the type-mismatch error and performs no table
write — the table is returned unchanged. -/
theorem put_type_mismatch (L : Loader) (t : Table) (service name : String) (v : PyVal)
    (h : isinstance v L.valueType = false) :
    L.put t service name v = (.error .typeMismatch, t) := by
  unfold Loader.put
  rw [h]
  rfl

/-- Witness for C5: putting a plain string where a `PlaintextValue` instance
is required. -/
theorem put_type_mismatch_witness :
    plaintextLoader.put [] "test" "foo" (.str "bar") = (.error .typeMismatch, []) :=
  put_type_mismatch plaintextLoader [] "test" "foo" (.str "bar") rfl

/-- C6: a scan yielding a row that misses a required value-type field makes
value reconstruction for that row fail with the malformed-row error (first
conjunct), and the whole `items` assembly fails with that same error instead
of returning a mapping that silently drops the row (second conjunct; the rows
before the malformed one reconstruct fine). -/
theorem items_malformed_row_aborts (L : Loader) (pre post : List Row) (row : Row)
    (f : String)
    (hpre : ∀ r ∈ pre, ∃ b, L.rowItem r = .ok b)
    (hname : (pdictGet CONFIG_NAME row).isSome)
    (hf : f ∈ L.valueType.fields)
    (hmiss : f ∉ pdictKeys row) :
    mkInstance L.valueType (pdictOfList (row.filter (fun kv => kv.1 != CONFIG_NAME)))
      = .error .malformedRow
    ∧ L.items (pre ++ row :: post) = .error .malformedRow := by
  have hsub : ∀ a, a ∈ pdictKeys (row.filter (fun kv => kv.1 != CONFIG_NAME)) →
      a ∈ pdictKeys row := by
    intro a ha
    simp only [pdictKeys, List.mem_map] at ha ⊢
    obtain ⟨kv, hkv, hkva⟩ := ha
    exact ⟨kv, (List.mem_filter.mp hkv).1, hkva⟩
  have hkw : pdictGet f (pdictOfList (row.filter (fun kv => kv.1 != CONFIG_NAME))) = none := by
    apply pdictGet_eq_none
    intro hc
    rcases mem_keys_pdictUpdate hc with h2 | h2
    · exact absurd h2 (List.not_mem_nil _)
    · exact hmiss (hsub f h2)
  have hmk := mkInstance_error_of_missing_field hf hkw
  obtain ⟨nm, hnm⟩ := Option.isSome_iff_exists.mp hname
  exact ⟨hmk, mapM_eq_error L.rowItem row .malformedRow
    (rowItem_error_of_mkInstance L row nm hnm hmk) pre post hpre⟩

/-- Witness for C6: the single-row scan `[{config_name: "foo"}]`, whose row
misses the required `plaintext` field. -/
theorem items_malformed_row_aborts_witness :
    mkInstance plaintextLoader.valueType
      (pdictOfList (missingFieldRow.filter (fun kv => kv.1 != CONFIG_NAME)))
      = .error .malformedRow
    ∧ plaintextLoader.items ([] ++ missingFieldRow :: []) = .error .malformedRow :=
  items_malformed_row_aborts plaintextLoader [] [] missingFieldRow "plaintext"
    (fun r hr => absurd hr (List.not_mem_nil _)) (by decide) (by decide) (by decide)

/-- C10: `items` removes only the item-name attribute before reconstructing a
scanned row's value — unlike `get`, which removes both key attributes — so a
scanned row carrying any attribute besides the item name and the value-type
fields (for instance the partition key) fails reconstruction even when every
required value field is present, and the whole assembly aborts. -/
theorem items_extra_attribute_aborts (L : Loader) (rows : List Row) (row : Row)
    (attr val : String)
    (hrow : row ∈ rows) (hattr : (attr, val) ∈ row) (hne : attr ≠ CONFIG_NAME)
    (hnf : attr ∉ L.valueType.fields)
    (_hall : ∀ f ∈ L.valueType.fields, f ∈ pdictKeys row) :
    mkInstance L.valueType (pdictOfList (row.filter (fun kv => kv.1 != CONFIG_NAME)))
      = .error .malformedRow
    ∧ ∃ e, L.items rows = .error e := by
  have hmemf : (attr, val) ∈ row.filter (fun kv => kv.1 != CONFIG_NAME) :=
    List.mem_filter.mpr ⟨hattr, by simp [hne]⟩
  have hkeys : attr ∈ pdictKeys (row.filter (fun kv => kv.1 != CONFIG_NAME)) := by
    simp only [pdictKeys, List.mem_map]
    exact ⟨(attr, val), hmemf, rfl⟩
  have hkw : attr ∈ pdictKeys (pdictOfList (row.filter (fun kv => kv.1 != CONFIG_NAME))) :=
    mem_keys_pdictUpdate_right hkeys []
  have hmk := mkInstance_error_of_extra_key hkw hnf
  refine ⟨hmk, ?_⟩
  cases hcn : pdictGet CONFIG_NAME row with
  | none =>
    refine mapM_isError_of_mem _ rows row .keyError hrow ?_
    unfold Loader.rowItem
    rw [hcn]
  | some nm =>
    exact mapM_isError_of_mem _ rows row .malformedRow hrow
      (rowItem_error_of_mkInstance L row nm hcn hmk)

/-- Witness for C10: a single scanned row that carries the partition-key
attribute `service_service` besides the item name and the `plaintext` field. -/
theorem items_extra_attribute_aborts_witness :
    mkInstance plaintextLoader.valueType
      (pdictOfList (extraAttrRow.filter (fun kv => kv.1 != CONFIG_NAME)))
      = .error .malformedRow
    ∧ ∃ e, plaintextLoader.items [extraAttrRow] = .error e :=
  items_extra_attribute_aborts plaintextLoader [extraAttrRow] extraAttrRow
    SERVICE_NAME "dummy" (by decide) (by decide) (by decide) (by decide) (by decide)

/-- C4 (amended): loader-level `get` returns the configured value-type
*instance* holding the plaintext when the row is present — the caller reads
`.plaintext` off it, as the loader's own docstring shows — and `None` when it
is absent.  After `put(ns, "foo", PlaintextValue(p))`, `get(ns, "foo")`
returns `PlaintextValue(p)`, and after a subsequent `delete(ns, "foo")` it
returns `None`; for every starting table and namespace. -/
theorem get_put_delete_roundtrip (t : Table) (service p : String) :
    plaintextLoader.get ((plaintextLoader.put t service "foo"
        (.inst "PlaintextValue" [("plaintext", p)])).2) service "foo"
      = .ok (some (.inst "PlaintextValue" [("plaintext", p)]))
    ∧ plaintextLoader.get (plaintextLoader.delete ((plaintextLoader.put t service "foo"
        (.inst "PlaintextValue" [("plaintext", p)])).2) service "foo") service "foo"
      = .ok none := by
  have hput2 : (plaintextLoader.put t service "foo" (.inst "PlaintextValue" [("plaintext", p)])).2
      = putItem t [(SERVICE_NAME, service), (CONFIG_NAME, "foo"), ("plaintext", p)] := rfl
  have hkey : rowKey [(SERVICE_NAME, service), (CONFIG_NAME, "foo"), ("plaintext", p)]
      = (some service, some "foo") := rfl
  have hfind : getItem (putItem t [(SERVICE_NAME, service), (CONFIG_NAME, "foo"), ("plaintext", p)])
      service "foo" = some [(SERVICE_NAME, service), (CONFIG_NAME, "foo"), ("plaintext", p)] := by
    show (t.filter (fun r => !(rowKey r
          == rowKey [(SERVICE_NAME, service), (CONFIG_NAME, "foo"), ("plaintext", p)]))
        ++ [[(SERVICE_NAME, service), (CONFIG_NAME, "foo"), ("plaintext", p)]]).find?
        (fun r => rowKey r == (some service, some "foo"))
      = some [(SERVICE_NAME, service), (CONFIG_NAME, "foo"), ("plaintext", p)]
    apply find?_filter_append
    · intro x hx
      have hx2 : rowKey x = (some service, some "foo") := eq_of_beq hx
      show (!(rowKey x
          == rowKey [(SERVICE_NAME, service), (CONFIG_NAME, "foo"), ("plaintext", p)])) = false
      rw [hkey, hx2]
      simp
    · show (rowKey [(SERVICE_NAME, service), (CONFIG_NAME, "foo"), ("plaintext", p)]
          == (some service, some "foo")) = true
      rw [hkey]
      simp
  constructor
  · rw [hput2]
    unfold Loader.get
    rw [hfind]
    rfl
  · rw [hput2]
    have hdel : getItem (plaintextLoader.delete
        (putItem t [(SERVICE_NAME, service), (CONFIG_NAME, "foo"), ("plaintext", p)]) service "foo")
        service "foo" = none := by
      show ((putItem t [(SERVICE_NAME, service), (CONFIG_NAME, "foo"), ("plaintext", p)]).filter
          (fun r => !(rowKey r == (some service, some "foo")))).find?
          (fun r => rowKey r == (some service, some "foo")) = none
      exact find?_filter_not _ _
    unfold Loader.get
    rw [hdel]

/-- C4 counterexample: after `put(ns, "foo", PlaintextValue("bar"))`,
`get(ns, "foo")` does not return the bare string `"bar"` — it returns the
`PlaintextValue` namedtuple instance (the docstring reads
`loader.get("test", "foo").plaintext`). -/
theorem get_returns_instance_not_string :
    plaintextLoader.get ((plaintextLoader.put [] "test" "foo" barValue).2) "test" "foo"
      ≠ .ok (some (.str "bar")) := by
  intro h
  have h2 : Except.ok (ε := Err) (some (PyVal.inst "PlaintextValue" [("plaintext", "bar")]))
      = Except.ok (some (PyVal.str "bar")) := h
  simp at h2

/-- C9: `put` followed by `get` returns the stored value-type instance
unchanged: `get` strips exactly the two key attributes `put` merged in and
reconstructs the remaining fields, for every loader whose value-type fields
are duplicate-free and disjoint from the two key attribute names, and every
instance of that value type. -/
theorem put_get_value_roundtrip (L : Loader) (t : Table) (service name : String)
    (fs : PyDict String)
    (hinst : pdictKeys fs = L.valueType.fields)
    (hnodup : L.valueType.fields.Nodup)
    (hdisj : ∀ f ∈ L.valueType.fields, f ≠ SERVICE_NAME ∧ f ≠ CONFIG_NAME) :
    L.get ((L.put t service name (.inst L.valueType.typeName fs)).2) service name
      = .ok (some (.inst L.valueType.typeName fs)) := by
  have hfsnodup : (pdictKeys fs).Nodup := by rw [hinst]; exact hnodup
  have hitem : pdictUpdate [(SERVICE_NAME, service), (CONFIG_NAME, name)] fs
      = [(SERVICE_NAME, service), (CONFIG_NAME, name)] ++ fs := by
    apply pdictUpdate_eq_append
    · intro k hk
      obtain ⟨h1, h2⟩ := hdisj k (hinst ▸ hk)
      intro hc
      rcases List.mem_cons.mp (hc : k ∈ SERVICE_NAME :: CONFIG_NAME :: []) with h3 | h3
      · exact h1 h3
      · exact h2 (List.mem_singleton.mp h3)
    · exact hfsnodup
  have hput2 : (L.put t service name (.inst L.valueType.typeName fs)).2
      = putItem t ([(SERVICE_NAME, service), (CONFIG_NAME, name)] ++ fs) := by
    unfold Loader.put
    rw [show isinstance (.inst L.valueType.typeName fs) L.valueType = true
      from beq_self_eq_true _]
    show putItem t (pdictUpdate [(SERVICE_NAME, service), (CONFIG_NAME, name)] fs) = _
    rw [hitem]
  have hkey : rowKey ([(SERVICE_NAME, service), (CONFIG_NAME, name)] ++ fs)
      = (some service, some name) := rfl
  have hfind : getItem (putItem t ([(SERVICE_NAME, service), (CONFIG_NAME, name)] ++ fs))
      service name = some ([(SERVICE_NAME, service), (CONFIG_NAME, name)] ++ fs) := by
    show (t.filter (fun r => !(rowKey r
          == rowKey ([(SERVICE_NAME, service), (CONFIG_NAME, name)] ++ fs)))
        ++ [[(SERVICE_NAME, service), (CONFIG_NAME, name)] ++ fs]).find?
        (fun r => rowKey r == (some service, some name))
      = some ([(SERVICE_NAME, service), (CONFIG_NAME, name)] ++ fs)
    apply find?_filter_append
    · intro x hx
      have hx2 : rowKey x = (some service, some name) := eq_of_beq hx
      show (!(rowKey x == rowKey ([(SERVICE_NAME, service), (CONFIG_NAME, name)] ++ fs))) = false
      rw [hkey, hx2]
      simp
    · show (rowKey ([(SERVICE_NAME, service), (CONFIG_NAME, name)] ++ fs)
          == (some service, some name)) = true
      rw [hkey]
      simp
  have hfilter : (([(SERVICE_NAME, service), (CONFIG_NAME, name)] ++ fs)).filter
      (fun kv => kv.1 != SERVICE_NAME && kv.1 != CONFIG_NAME) = fs := by
    rw [List.filter_append]
    rw [show ([(SERVICE_NAME, service), (CONFIG_NAME, name)] : Row).filter
        (fun kv => kv.1 != SERVICE_NAME && kv.1 != CONFIG_NAME) = [] from rfl]
    rw [List.nil_append]
    apply List.filter_eq_self.mpr
    intro kv hkv
    have hk : kv.1 ∈ L.valueType.fields := hinst ▸ (by
      simp only [pdictKeys, List.mem_map]
      exact ⟨kv, hkv, rfl⟩)
    obtain ⟨h1, h2⟩ := hdisj kv.1 hk
    simp [h1, h2]
  have hofl : pdictOfList fs = fs := by
    have h := pdictUpdate_eq_append (u := fs) (d := [])
      (fun k _ => List.not_mem_nil k) hfsnodup
    simpa using h
  have hmk : mkInstance L.valueType fs = .ok (.inst L.valueType.typeName fs) :=
    mkInstance_ok hinst hnodup
  have hget : L.get (putItem t ([(SERVICE_NAME, service), (CONFIG_NAME, name)] ++ fs))
      service name
      = (mkInstance L.valueType (pdictOfList
          ((([(SERVICE_NAME, service), (CONFIG_NAME, name)] ++ fs)).filter
            (fun kv => kv.1 != SERVICE_NAME && kv.1 != CONFIG_NAME)))).map some := by
    unfold Loader.get
    rw [hfind]
  rw [hput2, hget, hfilter, hofl, hmk]
  rfl

/-- Witness for C9: the round trip evaluated for `PlaintextValue("bar")` on
the empty table. -/
theorem put_get_value_roundtrip_witness :
    plaintextLoader.get ((plaintextLoader.put [] "test" "foo"
        (.inst "PlaintextValue" [("plaintext", "bar")])).2) "test" "foo"
      = .ok (some (.inst "PlaintextValue" [("plaintext", "bar")])) :=
  put_get_value_roundtrip plaintextLoader [] "test" "foo" [("plaintext", "bar")]
    (by decide) (by decide) (by decide)
